import Mathlib

/-!
Verification of the Kraus-channel module (pennylane/ops/channel.py).

The canonical channels (AmplitudeDamping, GeneralizedAmplitudeDamping,
PhaseDamping, DepolarizingChannel) are embedded as functions from real
parameters to lists of 2x2 complex matrices, translated directly from the
numpy formulas in the source.  The generic QubitChannel validator is embedded
over an explicit n-dimensional-array model that records the numpy shape, so
that the shape / rank checks and their failure modes (including Python
IndexError on low-rank operands and the numpy einsum failure on an empty
list) are captured faithfully.
-/

namespace PennylaneChannel

open Matrix

/-- `np.sqrt` of a real parameter, as a complex scalar.  NumPy computes in
floating point; the embedding uses the exact real square root. -/
noncomputable def csqrt (x : ℝ) : ℂ := (Real.sqrt x : ℂ)

/-- `AmplitudeDamping._kraus_matrices(gamma)`:
`K0 = np.diag([1, np.sqrt(1 - gamma)])`,
`K1 = np.sqrt(gamma) * np.array([[0, 1], [0, 0]])`. -/
noncomputable def amplitudeDampingKraus (gamma : ℝ) : List (Matrix (Fin 2) (Fin 2) ℂ) :=
  [Matrix.of ![![1, 0], ![0, csqrt (1 - gamma)]],
   csqrt gamma • Matrix.of ![![0, 1], ![0, 0]]]

/-- `GeneralizedAmplitudeDamping._kraus_matrices(gamma, p)`:
`K0 = np.sqrt(p) * np.diag([1, np.sqrt(1 - gamma)])`,
`K1 = np.sqrt(p) * np.sqrt(gamma) * np.array([[0, 1], [0, 0]])`,
`K2 = np.sqrt(1 - p) * np.diag([np.sqrt(1 - gamma), 1])`,
`K3 = np.sqrt(1 - p) * np.sqrt(gamma) * np.array([[0, 0], [1, 0]])`. -/
noncomputable def generalizedAmplitudeDampingKraus (gamma p : ℝ) :
    List (Matrix (Fin 2) (Fin 2) ℂ) :=
  [csqrt p • Matrix.of ![![1, 0], ![0, csqrt (1 - gamma)]],
   (csqrt p * csqrt gamma) • Matrix.of ![![0, 1], ![0, 0]],
   csqrt (1 - p) • Matrix.of ![![csqrt (1 - gamma), 0], ![0, 1]],
   (csqrt (1 - p) * csqrt gamma) • Matrix.of ![![0, 0], ![1, 0]]]

/-- `PhaseDamping._kraus_matrices(gamma)`:
`K0 = np.diag([1, np.sqrt(1 - gamma)])`,
`K1 = np.diag([0, np.sqrt(gamma)])`. -/
noncomputable def phaseDampingKraus (gamma : ℝ) : List (Matrix (Fin 2) (Fin 2) ℂ) :=
  [Matrix.of ![![1, 0], ![0, csqrt (1 - gamma)]],
   Matrix.of ![![0, 0], ![0, csqrt gamma]]]

/-- `DepolarizingChannel._kraus_matrices(p)`:
`K0 = np.sqrt(1 - p) * np.eye(2)`,
`K1 = np.sqrt(p / 3) * np.array([[0, 1], [1, 0]])`,
`K2 = np.sqrt(p / 3) * np.array([[0, -1j], [1j, 0]])`,
`K3 = np.sqrt(p / 3) * np.array([[1, 0], [0, -1]])`. -/
noncomputable def depolarizingKraus (p : ℝ) : List (Matrix (Fin 2) (Fin 2) ℂ) :=
  [csqrt (1 - p) • Matrix.of ![![1, 0], ![0, 1]],
   csqrt (p / 3) • Matrix.of ![![0, 1], ![1, 0]],
   csqrt (p / 3) • Matrix.of ![![0, -Complex.I], ![Complex.I, 0]],
   csqrt (p / 3) • Matrix.of ![![1, 0], ![0, -1]]]

/-- The completeness (trace-preservation) relation for a list of Kraus
matrices: the sum over the list of the conjugate-transpose of each matrix
times the matrix equals the identity. -/
noncomputable def krausComplete (L : List (Matrix (Fin 2) (Fin 2) ℂ)) : Prop :=
  (L.map fun K => K.conjTranspose * K).sum = 1

/-!
## The generic channel validator (`QubitChannel._kraus_matrices`)

The validator receives a Python list of numpy arrays.  An array is modelled
by its shape (the tuple `K.shape`, a list of naturals) together with an
entry function indexed by multi-indices.  This keeps the rank information the
source inspects (`K.ndim`, `K.shape[0]`, `K.shape[1]`).
-/

/-- Model of a numpy `ndarray`: the shape tuple and the entries, indexed by a
multi-index of the same length as the shape. -/
structure NDArray where
  shape : List ℕ
  entry : List ℕ → ℂ

/-- `K.ndim` is the length of the shape tuple. -/
def NDArray.ndim (K : NDArray) : ℕ := K.shape.length

/-- The distinct failures `QubitChannel._kraus_matrices` can raise.  The first
four are the typed validation errors of the source; the last two are failures
raised by Python / numpy outside the guarded branches. -/
inductive ChannelError where
  /-- `ValueError("Only channels with similar input and output Hilbert space
  dimensions can be applied.")` -/
  | nonSquare
  /-- `ValueError("All Kraus matrices must have the same shape.")` -/
  | shapeMismatch
  /-- `ValueError("Dimension of all Kraus matrices must be
  (2**num_wires, 2**num_wires).")` -/
  | badDimension
  /-- `ValueError("Only trace preserving channels can be applied.")` -/
  | notTracePreserving
  /-- Python `IndexError: tuple index out of range`, raised by `K.shape[0]` or
  `K.shape[1]` when an operand has fewer than two axes. -/
  | indexOutOfRange
  /-- numpy `ValueError` raised by `np.einsum` when `np.array(K_list)` is not a
  3-axis array; this happens for the empty list, whose `np.array` has
  shape `(0,)`. -/
  | einsumFailure
deriving DecidableEq

/-- The generator `all(K.shape[0] == K.shape[1] for K in K_list)`: evaluated
left to right, `K.shape[1]` (after `K.shape[0]`) raises `IndexError` on an
operand of rank below two, and the generator stops at the first `False`. -/
def checkSquare : List NDArray → Except ChannelError Bool
  | [] => .ok true
  | K :: rest =>
    match K.shape.get? 0, K.shape.get? 1 with
    | some a, some b => if a = b then checkSquare rest else .ok false
    | _, _ => .error .indexOutOfRange

/-- `all(K.shape == K_list[0].shape for K in K_list)`.  The generator body
never runs for the empty list, so `K_list[0]` is never evaluated there. -/
def checkSameShape : List NDArray → Bool
  | [] => true
  | K0 :: rest => (K0 :: rest).all fun K => K.shape = K0.shape

/-- `all(K.ndim == 2 for K in K_list)`. -/
def checkTwoDim (K_list : List NDArray) : Bool :=
  K_list.all fun K => K.ndim = 2

/-- `np.einsum("ajk,ajl->kl", K_arr.conj(), K_arr)` at position `(k, l)`:
the sum over the list index `a` and the row index `j < d` of
`conj(K_a[j, k]) * K_a[j, l]`. -/
noncomputable def krausSum (K_list : List NDArray) (d k l : ℕ) : ℂ :=
  (K_list.map fun K =>
    ∑ j ∈ Finset.range d, (starRingEnd ℂ) (K.entry [j, k]) * K.entry [j, l]).sum

/-- `np.eye(d)` at position `(k, l)`. -/
def npEye (k l : ℕ) : ℂ := if k = l then 1 else 0

/-- `np.allclose` default absolute tolerance `1e-8`. -/
noncomputable def atol : ℝ := 1 / 10 ^ 8

/-- `np.allclose` default relative tolerance `1e-5`. -/
noncomputable def rtol : ℝ := 1 / 10 ^ 5

/-- `np.allclose(Kraus_sum, np.eye(d))`: elementwise
`|a - b| <= atol + rtol * |b|` over the `d x d` grid. -/
noncomputable def krausSumAllclose (K_list : List NDArray) (d : ℕ) : Prop :=
  ∀ k < d, ∀ l < d,
    Complex.abs (krausSum K_list d k l - npEye k l) ≤ atol + rtol * Complex.abs (npEye k l)

open Classical in
/-- `QubitChannel._kraus_matrices(K_list)`: the three shape checks in source
order, then the completeness check.  For the empty list the three checks pass
vacuously and `np.einsum` fails on the 1-axis `np.array([])` before
`np.eye(K_list[0].shape[0])` is reached. -/
noncomputable def qubitChannelKraus (K_list : List NDArray) :
    Except ChannelError (List NDArray) :=
  match checkSquare K_list with
  | .error e => .error e
  | .ok false => .error .nonSquare
  | .ok true =>
    if ¬ checkSameShape K_list then .error .shapeMismatch
    else if ¬ checkTwoDim K_list then .error .badDimension
    else
      match K_list with
      | [] => .error .einsumFailure
      | K0 :: rest =>
        if krausSumAllclose (K0 :: rest) K0.shape.headI then .ok (K0 :: rest)
        else .error .notTracePreserving

/-!
## Fixed per-variant metadata and concrete example arrays
-/

/-- `AmplitudeDamping.num_params = 1`. -/
def amplitudeDampingNumParams : ℕ := 1

/-- `GeneralizedAmplitudeDamping.num_params = 2`. -/
def generalizedAmplitudeDampingNumParams : ℕ := 2

/-- `PhaseDamping.num_params = 1`. -/
def phaseDampingNumParams : ℕ := 1

/-- `DepolarizingChannel.num_params = 1`. -/
def depolarizingNumParams : ℕ := 1

/-- `QubitChannel.num_params = 1` (the single parameter is the matrix list). -/
def qubitChannelNumParams : ℕ := 1

/-- The 2x2 identity `np.eye(2)` as an `NDArray`. -/
noncomputable def eye2ND : NDArray :=
  ⟨[2, 2], fun idx => if idx = [0, 0] ∨ idx = [1, 1] then 1 else 0⟩

/-- `0.9 * np.eye(2)` as an `NDArray`. -/
noncomputable def scaledEye2ND : NDArray :=
  ⟨[2, 2], fun idx => if idx = [0, 0] ∨ idx = [1, 1] then ((9 / 10 : ℝ) : ℂ) else 0⟩

/-- A 1-D length-2 vector (rank 1, so `K.shape[1]` does not exist). -/
noncomputable def vec2ND : NDArray := ⟨[2], fun _ => 0⟩

/-- A 2x3 rectangular (non-square) matrix. -/
noncomputable def rect23ND : NDArray := ⟨[2, 3], fun _ => 0⟩

/-- The 3x3 identity `np.eye(3)` as an `NDArray`. -/
noncomputable def eye3ND : NDArray :=
  ⟨[3, 3], fun idx => if idx = [0, 0] ∨ idx = [1, 1] ∨ idx = [2, 2] then 1 else 0⟩

/-- A rank-3 batched array of shape `(2, 2, 2)`. -/
noncomputable def batch222ND : NDArray := ⟨[2, 2, 2], fun _ => 0⟩

/-!
## Scalar lemmas
-/

theorem csqrt_mul_self {x : ℝ} (hx : 0 ≤ x) : csqrt x * csqrt x = (x : ℂ) := by
  unfold csqrt
  rw [← Complex.ofReal_mul, Real.mul_self_sqrt hx]

theorem conj_csqrt (x : ℝ) : (starRingEnd ℂ) (csqrt x) = csqrt x :=
  Complex.conj_ofReal _

theorem conj_csqrt_mul (x y : ℝ) :
    (starRingEnd ℂ) (csqrt x * csqrt y) = csqrt x * csqrt y := by
  rw [RingHom.map_mul, conj_csqrt, conj_csqrt]

theorem csqrt_sq {x : ℝ} (hx : 0 ≤ x) : csqrt x ^ 2 = (x : ℂ) := by
  rw [sq, csqrt_mul_self hx]

theorem csqrt_one : csqrt 1 = 1 := by
  unfold csqrt
  rw [Real.sqrt_one, Complex.ofReal_one]

theorem csqrt_zero : csqrt 0 = 0 := by
  unfold csqrt
  rw [Real.sqrt_zero, Complex.ofReal_zero]

/-!
## Completeness of the canonical channels
-/

theorem amplitudeDamping_complete {gamma : ℝ} (h0 : 0 ≤ gamma) (h1 : gamma ≤ 1) :
    krausComplete (amplitudeDampingKraus gamma) := by
  unfold krausComplete amplitudeDampingKraus
  ext i j
  fin_cases i <;> fin_cases j <;>
    simp [Matrix.mul_apply, Matrix.conjTranspose_apply, Fin.sum_univ_two,
      Matrix.one_apply, conj_csqrt, csqrt_mul_self (sub_nonneg.mpr h1),
      csqrt_mul_self h0]

theorem phaseDamping_complete {gamma : ℝ} (h0 : 0 ≤ gamma) (h1 : gamma ≤ 1) :
    krausComplete (phaseDampingKraus gamma) := by
  unfold krausComplete phaseDampingKraus
  ext i j
  fin_cases i <;> fin_cases j <;>
    simp [Matrix.mul_apply, Matrix.conjTranspose_apply, Fin.sum_univ_two,
      Matrix.one_apply, conj_csqrt, csqrt_mul_self (sub_nonneg.mpr h1),
      csqrt_mul_self h0]

theorem generalizedAmplitudeDamping_complete {gamma p : ℝ}
    (hg0 : 0 ≤ gamma) (hg1 : gamma ≤ 1) (hp0 : 0 ≤ p) (hp1 : p ≤ 1) :
    krausComplete (generalizedAmplitudeDampingKraus gamma p) := by
  unfold krausComplete generalizedAmplitudeDampingKraus
  ext i j
  fin_cases i <;> fin_cases j <;>
    simp [Matrix.mul_apply, Matrix.conjTranspose_apply, Fin.sum_univ_two,
      Matrix.one_apply, conj_csqrt, conj_csqrt_mul] <;>
  ring_nf <;>
  simp [csqrt_sq (sub_nonneg.mpr hg1), csqrt_sq hg0,
    csqrt_sq (sub_nonneg.mpr hp1), csqrt_sq hp0] <;>
  ring

theorem depolarizing_complete {p : ℝ} (hp0 : 0 ≤ p) (hp1 : p ≤ 1) :
    krausComplete (depolarizingKraus p) := by
  have h3' : (0:ℝ) ≤ p * (1 / 3) := by linarith
  unfold krausComplete depolarizingKraus
  ext i j
  fin_cases i <;> fin_cases j <;>
    simp [Matrix.mul_apply, Matrix.conjTranspose_apply, Fin.sum_univ_two,
      Matrix.one_apply, conj_csqrt]
  all_goals ring_nf
  all_goals rw [csqrt_sq (sub_nonneg.mpr hp1), Complex.I_sq, csqrt_sq h3']
  all_goals push_cast
  all_goals ring

/-- At `p = 1` the four generalized-amplitude-damping matrices are the two
amplitude-damping matrices followed by two zero matrices. -/
theorem gad_p_one_eq_ad_append_zeros (gamma : ℝ) :
    generalizedAmplitudeDampingKraus gamma 1 =
      amplitudeDampingKraus gamma ++ [0, 0] := by
  unfold generalizedAmplitudeDampingKraus amplitudeDampingKraus
  norm_num [csqrt_one, csqrt_zero]

/-!
## Behaviour of the validator checks
-/

theorem checkSquare_ok_of_square (L : List NDArray)
    (h : ∀ K ∈ L, ∃ a t, K.shape = a :: a :: t) :
    checkSquare L = .ok true := by
  induction L with
  | nil => rfl
  | cons K rest ih =>
    obtain ⟨a, t, hK⟩ := h K (List.mem_cons_self K rest)
    have hr := ih fun K' hK' => h K' (List.mem_cons_of_mem K hK')
    simp [checkSquare, hK, hr]

theorem checkSquare_ok_false (L : List NDArray)
    (h : ∀ K ∈ L, ∃ r c t, K.shape = r :: c :: t)
    (hex : ∃ K ∈ L, K.shape.get? 0 ≠ K.shape.get? 1) :
    checkSquare L = .ok false := by
  induction L with
  | nil => simp at hex
  | cons K rest ih =>
    obtain ⟨r, c, t, hK⟩ := h K (List.mem_cons_self K rest)
    by_cases hrc : r = c
    · obtain ⟨K', hK', hne⟩ := hex
      rcases List.mem_cons.mp hK' with rfl | hmem
      · exact absurd (by simp [hK, hrc]) hne
      · have hr := ih (fun x hx => h x (List.mem_cons_of_mem K hx)) ⟨K', hmem, hne⟩
        simp [checkSquare, hK, hrc, hr]
    · simp [checkSquare, hK, hrc]

theorem checkSameShape_true_of_uniform (L : List NDArray) (d : ℕ)
    (h : ∀ K ∈ L, K.shape = [d, d]) :
    checkSameShape L = true := by
  cases L with
  | nil => rfl
  | cons K0 rest =>
    simp only [checkSameShape, List.all_eq_true, decide_eq_true_eq]
    intro K hK
    rw [h K hK, h K0 (List.mem_cons_self K0 rest)]

theorem checkSameShape_true_of_eq_head (K0 : NDArray) (rest : List NDArray)
    (h : ∀ K ∈ K0 :: rest, K.shape = K0.shape) :
    checkSameShape (K0 :: rest) = true := by
  simp only [checkSameShape, List.all_eq_true, decide_eq_true_eq]
  exact h

theorem checkSameShape_false_of_mismatch (K0 : NDArray) (rest : List NDArray)
    (hex : ∃ K ∈ K0 :: rest, K.shape ≠ K0.shape) :
    checkSameShape (K0 :: rest) = false := by
  obtain ⟨K, hK, hne⟩ := hex
  simp only [checkSameShape, List.all_eq_false, decide_eq_true_eq]
  exact ⟨K, hK, hne⟩

theorem checkTwoDim_true_of_uniform (L : List NDArray) (d : ℕ)
    (h : ∀ K ∈ L, K.shape = [d, d]) :
    checkTwoDim L = true := by
  simp only [checkTwoDim, List.all_eq_true, decide_eq_true_eq]
  intro K hK
  simp [NDArray.ndim, h K hK]

theorem checkTwoDim_false_of_rank (L : List NDArray)
    (hex : ∃ K ∈ L, K.ndim ≠ 2) :
    checkTwoDim L = false := by
  obtain ⟨K, hK, hne⟩ := hex
  simp only [checkTwoDim, List.all_eq_false, decide_eq_true_eq]
  exact ⟨K, hK, hne⟩

open Classical in
theorem qubitChannelKraus_reduces (K0 : NDArray) (rest : List NDArray) (d : ℕ)
    (hws : ∀ K ∈ K0 :: rest, K.shape = [d, d]) :
    qubitChannelKraus (K0 :: rest) =
      if krausSumAllclose (K0 :: rest) d then .ok (K0 :: rest)
      else .error .notTracePreserving := by
  have hsq := checkSquare_ok_of_square _ fun K hK => ⟨d, [], hws K hK⟩
  have hss := checkSameShape_true_of_uniform _ d hws
  have h2d := checkTwoDim_true_of_uniform _ d hws
  have hd : K0.shape.headI = d := by
    rw [hws K0 (List.mem_cons_self K0 rest)]
    rfl
  unfold qubitChannelKraus
  simp [hsq, hss, h2d, hd]

/-!
## The claims
-/

/-- C1: for every parameter value in the documented domain (`gamma` in `[0,1]`
for AmplitudeDamping and PhaseDamping, `(gamma, p)` in `[0,1] x [0,1]` for
GeneralizedAmplitudeDamping, `p` in `[0,1]` for DepolarizingChannel), the
matrices returned by `_kraus_matrices` satisfy the completeness relation
`sum of conj-transpose(K_i) * K_i = I_2`. -/
theorem claim_C1 (gamma p : ℝ)
    (hg0 : 0 ≤ gamma) (hg1 : gamma ≤ 1) (hp0 : 0 ≤ p) (hp1 : p ≤ 1) :
    krausComplete (amplitudeDampingKraus gamma) ∧
    krausComplete (phaseDampingKraus gamma) ∧
    krausComplete (generalizedAmplitudeDampingKraus gamma p) ∧
    krausComplete (depolarizingKraus p) :=
  ⟨amplitudeDamping_complete hg0 hg1, phaseDamping_complete hg0 hg1,
   generalizedAmplitudeDamping_complete hg0 hg1 hp0 hp1,
   depolarizing_complete hp0 hp1⟩

theorem claim_C1_witness :
    ((0:ℝ) ≤ 1 ∧ (1:ℝ) ≤ 1) ∧
    krausComplete (amplitudeDampingKraus 1) ∧
    krausComplete (phaseDampingKraus 1) ∧
    krausComplete (generalizedAmplitudeDampingKraus 1 1) ∧
    krausComplete (depolarizingKraus 1) :=
  ⟨⟨by norm_num, by norm_num⟩,
   claim_C1 1 1 (by norm_num) (by norm_num) (by norm_num) (by norm_num)⟩

/-- C2 (as stated, refuted): at `gamma = 0, p = 1` the generalized channel
returns a list of four matrices while the amplitude damping channel returns
two, so the ordered sequences are not equal. -/
theorem claim_C2_counterexample :
    generalizedAmplitudeDampingKraus 0 1 ≠ amplitudeDampingKraus 0 := by
  intro h
  have hlen := congrArg List.length h
  simp [generalizedAmplitudeDampingKraus, amplitudeDampingKraus] at hlen

/-- C2 (amended): for every `gamma` in `[0,1]`, the output of
`GeneralizedAmplitudeDamping._kraus_matrices` with `p = 1` is the output of
`AmplitudeDamping._kraus_matrices` with the same `gamma` followed by two zero
matrices. -/
theorem claim_C2 (gamma : ℝ) (h0 : 0 ≤ gamma) (h1 : gamma ≤ 1) :
    generalizedAmplitudeDampingKraus gamma 1 =
      amplitudeDampingKraus gamma ++ [0, 0] :=
  gad_p_one_eq_ad_append_zeros gamma

theorem claim_C2_witness :
    ((0:ℝ) ≤ 1 / 2 ∧ (1 / 2 : ℝ) ≤ 1) ∧
    generalizedAmplitudeDampingKraus (1 / 2) 1 =
      amplitudeDampingKraus (1 / 2) ++ [0, 0] :=
  ⟨⟨by norm_num, by norm_num⟩, claim_C2 (1 / 2) (by norm_num) (by norm_num)⟩

/-- C8 (as stated, refuted): the generic variant's `num_params` is not `0`:
the source sets `QubitChannel.num_params = 1`. -/
theorem claim_C8_counterexample : qubitChannelNumParams ≠ 0 := by
  decide

/-- C8 (amended): the generic channel variant's exposed parameter-count
metadata is `1`: its single parameter is the list of Kraus matrices. -/
theorem claim_C8 : qubitChannelNumParams = 1 := rfl

/-- C9: every channel variant's matrix-producing function is deterministic:
two invocations with equal parameter tuples return identical ordered
sequences of matrices. -/
theorem claim_C9 (g1 g2 q1 q2 : ℝ) (L1 L2 : List NDArray)
    (hg : g1 = g2) (hq : q1 = q2) (hL : L1 = L2) :
    amplitudeDampingKraus g1 = amplitudeDampingKraus g2 ∧
    phaseDampingKraus g1 = phaseDampingKraus g2 ∧
    generalizedAmplitudeDampingKraus g1 q1 = generalizedAmplitudeDampingKraus g2 q2 ∧
    depolarizingKraus q1 = depolarizingKraus q2 ∧
    qubitChannelKraus L1 = qubitChannelKraus L2 := by
  subst hg hq hL
  exact ⟨rfl, rfl, rfl, rfl, rfl⟩

theorem claim_C9_witness :
    amplitudeDampingKraus (1 / 2) = amplitudeDampingKraus (1 / 2) ∧
    phaseDampingKraus (1 / 2) = phaseDampingKraus (1 / 2) ∧
    generalizedAmplitudeDampingKraus (1 / 2) (1 / 3) =
      generalizedAmplitudeDampingKraus (1 / 2) (1 / 3) ∧
    depolarizingKraus (1 / 3) = depolarizingKraus (1 / 3) ∧
    qubitChannelKraus [eye2ND] = qubitChannelKraus [eye2ND] :=
  claim_C9 (1 / 2) (1 / 2) (1 / 3) (1 / 3) [eye2ND] [eye2ND] rfl rfl rfl

/-- C10: on the empty list the three shape / rank checks pass vacuously, the
call does not return successfully, and the failure (`np.einsum` on the 1-axis
`np.array([])`) is none of the four documented typed validation errors. -/
theorem claim_C10 :
    qubitChannelKraus [] = .error .einsumFailure ∧
    checkSquare [] = .ok true ∧
    checkSameShape [] = true ∧
    checkTwoDim [] = true ∧
    ChannelError.einsumFailure ≠ ChannelError.nonSquare ∧
    ChannelError.einsumFailure ≠ ChannelError.shapeMismatch ∧
    ChannelError.einsumFailure ≠ ChannelError.badDimension ∧
    ChannelError.einsumFailure ≠ ChannelError.notTracePreserving := by
  refine ⟨?_, rfl, rfl, rfl, by decide, by decide, by decide, by decide⟩
  simp [qubitChannelKraus, checkSquare, checkSameShape, checkTwoDim]

/-- C3: for every nonempty list of same-shaped square 2-D matrices whose
completeness sum is not within the `np.allclose` tolerance of the identity,
`QubitChannel._kraus_matrices` raises the trace-preservation error. -/
theorem claim_C3 (K_list : List NDArray) (d : ℕ)
    (hws : ∀ K ∈ K_list, K.shape = [d, d]) (hne : K_list ≠ [])
    (hfar : ¬ krausSumAllclose K_list d) :
    qubitChannelKraus K_list = .error .notTracePreserving := by
  cases K_list with
  | nil => exact absurd rfl hne
  | cons K0 rest =>
    rw [qubitChannelKraus_reduces K0 rest d hws, if_neg hfar]

theorem claim_C3_witness :
    (∀ K ∈ [scaledEye2ND, scaledEye2ND], K.shape = [2, 2]) ∧
    ([scaledEye2ND, scaledEye2ND] : List NDArray) ≠ [] ∧
    ¬ krausSumAllclose [scaledEye2ND, scaledEye2ND] 2 ∧
    qubitChannelKraus [scaledEye2ND, scaledEye2ND] = .error .notTracePreserving := by
  have hws : ∀ K ∈ [scaledEye2ND, scaledEye2ND], K.shape = [2, 2] := by
    intro K hK
    rcases List.mem_cons.mp hK with rfl | hK
    · rfl
    rcases List.mem_cons.mp hK with rfl | hK
    · rfl
    simp at hK
  have hfar : ¬ krausSumAllclose [scaledEye2ND, scaledEye2ND] 2 := by
    intro h
    have h00 := h 0 (by norm_num) 0 (by norm_num)
    have harg : krausSum [scaledEye2ND, scaledEye2ND] 2 0 0 = ((81 / 50 : ℝ) : ℂ) := by
      simp [krausSum, scaledEye2ND, Finset.sum_range_succ, Complex.conj_ofReal,
        -Complex.ofReal_div]
      push_cast
      ring
    rw [harg] at h00
    have hsub : ((81 / 50 : ℝ) : ℂ) - npEye 0 0 = ((31 / 50 : ℝ) : ℂ) := by
      simp only [npEye, if_pos rfl]
      push_cast
      norm_num
    rw [hsub, Complex.abs_ofReal] at h00
    have heye : Complex.abs (npEye 0 0) = 1 := by simp [npEye]
    rw [heye] at h00
    have habs : |(31 / 50 : ℝ)| = 31 / 50 := abs_of_pos (by norm_num)
    rw [habs, atol, rtol] at h00
    norm_num at h00
  exact ⟨hws, by simp, hfar, claim_C3 [scaledEye2ND, scaledEye2ND] 2 hws (by simp) hfar⟩

/-- C4: every nonempty list of same-shaped square 2-D matrices whose
completeness sum is within the `np.allclose` tolerance of the identity is
returned by `QubitChannel._kraus_matrices` unchanged. -/
theorem claim_C4 (K_list : List NDArray) (d : ℕ)
    (hws : ∀ K ∈ K_list, K.shape = [d, d]) (hne : K_list ≠ [])
    (hcl : krausSumAllclose K_list d) :
    qubitChannelKraus K_list = .ok K_list := by
  cases K_list with
  | nil => exact absurd rfl hne
  | cons K0 rest =>
    rw [qubitChannelKraus_reduces K0 rest d hws, if_pos hcl]

theorem claim_C4_witness :
    (∀ K ∈ [eye2ND], K.shape = [2, 2]) ∧
    ([eye2ND] : List NDArray) ≠ [] ∧
    krausSumAllclose [eye2ND] 2 ∧
    qubitChannelKraus [eye2ND] = .ok [eye2ND] := by
  have hws : ∀ K ∈ [eye2ND], K.shape = [2, 2] := by
    intro K hK
    rcases List.mem_cons.mp hK with rfl | hK
    · rfl
    simp at hK
  have hcl : krausSumAllclose [eye2ND] 2 := by
    intro k hk l hl
    interval_cases k <;> interval_cases l <;>
      simp [krausSum, eye2ND, npEye, Finset.sum_range_succ, atol, rtol] <;>
      norm_num
  exact ⟨hws, by simp, hcl, claim_C4 [eye2ND] 2 hws (by simp) hcl⟩

/-- C5: a list of 2-D matrices containing at least one non-square matrix is
rejected with the non-square-operator error, regardless of any later check
(the squareness check runs first). -/
theorem claim_C5 (K_list : List NDArray)
    (hrank : ∀ K ∈ K_list, ∃ r c, K.shape = [r, c])
    (hex : ∃ K ∈ K_list, ∃ r c, K.shape = [r, c] ∧ r ≠ c) :
    qubitChannelKraus K_list = .error .nonSquare := by
  have hsq : checkSquare K_list = .ok false := by
    apply checkSquare_ok_false
    · intro K hK
      obtain ⟨r, c, h⟩ := hrank K hK
      exact ⟨r, c, [], h⟩
    · obtain ⟨K, hK, r, c, hsh, hrc⟩ := hex
      exact ⟨K, hK, by simp [hsh, hrc]⟩
  unfold qubitChannelKraus
  rw [hsq]

theorem claim_C5_witness :
    (∀ K ∈ [rect23ND], ∃ r c, K.shape = [r, c]) ∧
    (∃ K ∈ [rect23ND], ∃ r c, K.shape = [r, c] ∧ r ≠ c) ∧
    qubitChannelKraus [rect23ND] = .error .nonSquare := by
  have hrank : ∀ K ∈ [rect23ND], ∃ r c, K.shape = [r, c] := by
    intro K hK
    rcases List.mem_cons.mp hK with rfl | hK
    · exact ⟨2, 3, rfl⟩
    simp at hK
  have hex : ∃ K ∈ [rect23ND], ∃ r c, K.shape = [r, c] ∧ r ≠ c :=
    ⟨rect23ND, by simp, 2, 3, rfl, by decide⟩
  exact ⟨hrank, hex, claim_C5 [rect23ND] hrank hex⟩

/-- C6: a list of square 2-D matrices in which some matrix's shape differs
from the first matrix's shape is rejected with the
inconsistent-operator-dimensions error. -/
theorem claim_C6 (K0 : NDArray) (rest : List NDArray)
    (hsq : ∀ K ∈ K0 :: rest, ∃ r, K.shape = [r, r])
    (hex : ∃ K ∈ K0 :: rest, K.shape ≠ K0.shape) :
    qubitChannelKraus (K0 :: rest) = .error .shapeMismatch := by
  have h1 : checkSquare (K0 :: rest) = .ok true := by
    apply checkSquare_ok_of_square
    intro K hK
    obtain ⟨r, h⟩ := hsq K hK
    exact ⟨r, [], h⟩
  have h2 := checkSameShape_false_of_mismatch K0 rest hex
  unfold qubitChannelKraus
  simp [h1, h2]

theorem claim_C6_witness :
    (∀ K ∈ [eye2ND, eye3ND], ∃ r, K.shape = [r, r]) ∧
    (∃ K ∈ [eye2ND, eye3ND], K.shape ≠ eye2ND.shape) ∧
    qubitChannelKraus [eye2ND, eye3ND] = .error .shapeMismatch := by
  have hsq : ∀ K ∈ [eye2ND, eye3ND], ∃ r, K.shape = [r, r] := by
    intro K hK
    rcases List.mem_cons.mp hK with rfl | hK
    · exact ⟨2, rfl⟩
    rcases List.mem_cons.mp hK with rfl | hK
    · exact ⟨3, rfl⟩
    simp at hK
  have hex : ∃ K ∈ [eye2ND, eye3ND], K.shape ≠ eye2ND.shape := by
    refine ⟨eye3ND, by simp, ?_⟩
    show [3, 3] ≠ [2, 2]
    decide
  exact ⟨hsq, hex, claim_C6 eye2ND [eye3ND] hsq hex⟩

/-- C7 (as stated, refuted): a list containing one 1-D vector does not fail
with the invalid-rank DimensionError: `K.shape[1]` in the squareness check
raises `IndexError` first. -/
theorem claim_C7_counterexample :
    qubitChannelKraus [vec2ND] = .error .indexOutOfRange ∧
    qubitChannelKraus [vec2ND] ≠ .error .badDimension := by
  have h : qubitChannelKraus [vec2ND] = .error .indexOutOfRange := by
    simp [qubitChannelKraus, checkSquare, vec2ND]
  refine ⟨h, ?_⟩
  rw [h]
  simp

/-- C7 (amended): a list of operators of rank at least 2 that passes the
squareness and shape-uniformity checks and contains an operator whose rank is
not 2 fails with the invalid-rank DimensionError; rank-0 and rank-1 operators
instead make the squareness check fail with `IndexError`. -/
theorem claim_C7 (K0 : NDArray) (rest : List NDArray)
    (hsqr : ∀ K ∈ K0 :: rest, ∃ a t, K.shape = a :: a :: t)
    (hsame : ∀ K ∈ K0 :: rest, K.shape = K0.shape)
    (hex : ∃ K ∈ K0 :: rest, K.ndim ≠ 2) :
    qubitChannelKraus (K0 :: rest) = .error .badDimension := by
  have h1 := checkSquare_ok_of_square _ hsqr
  have h2 := checkSameShape_true_of_eq_head K0 rest hsame
  have h3 := checkTwoDim_false_of_rank _ hex
  unfold qubitChannelKraus
  simp [h1, h2, h3]

theorem claim_C7_witness :
    (∀ K ∈ [batch222ND], ∃ a t, K.shape = a :: a :: t) ∧
    (∀ K ∈ [batch222ND], K.shape = batch222ND.shape) ∧
    (∃ K ∈ [batch222ND], K.ndim ≠ 2) ∧
    qubitChannelKraus [batch222ND] = .error .badDimension := by
  have hsqr : ∀ K ∈ [batch222ND], ∃ a t, K.shape = a :: a :: t := by
    intro K hK
    rcases List.mem_cons.mp hK with rfl | hK
    · exact ⟨2, [2], rfl⟩
    simp at hK
  have hsame : ∀ K ∈ [batch222ND], K.shape = batch222ND.shape := by
    intro K hK
    rcases List.mem_cons.mp hK with rfl | hK
    · rfl
    simp at hK
  have hex : ∃ K ∈ [batch222ND], K.ndim ≠ 2 :=
    ⟨batch222ND, by simp, by decide⟩
  exact ⟨hsqr, hsame, hex, claim_C7 batch222ND [] hsqr hsame hex⟩

end PennylaneChannel
